import Mathlib

/-!
Shallow embedding of the stoch kernel module (src/stoch2.c, the order-1
Markov variant targeted by the specification).  The driver keeps one
frequency table per previous byte (256 contexts), a grand total, and a
training cursor; training bumps counters, reading samples from the tables.
C unsigned int counters wrap modulo 2^32, which the embedding keeps
explicit.  Randomness (get_random_bytes) is modelled as a stream
rnd : Nat -> Nat of draws, consumed left to right exactly where the C code
calls get_random_bytes.
-/

namespace Stoch

/-- Modulus of a C unsigned int (the counter type used throughout stoch2.c). -/
def UINT_MOD : ℕ := 2 ^ 32

/-- STOCH_HIST_SIZE from stoch2.c: the byte alphabet size. -/
def STOCH_HIST_SIZE : ℕ := 256

/-- Embeds struct _stoch_hist from stoch2.c: one frequency table.  data s is
the unsigned int counter for next-symbol s (only indices 0..255 are ever
touched), total its running total. -/
@[ext] structure StochHist where
  data : ℕ → ℕ
  total : ℕ

/-- Embeds the anonymous global struct stoch_hist from stoch2.c: 256 context
tables (data c is the table for previous byte c) plus the grand total. -/
@[ext] structure StochHists where
  data : ℕ → StochHist
  total : ℕ

/-- The full mutable state of the module: the global stoch_hist together with
the training cursor stoch_prev. -/
@[ext] structure StochState where
  hist : StochHists
  prev : ℕ

/-- A table with every counter zero, as static storage is zero-initialised
when the module is loaded. -/
def emptyHist : StochHist := { data := fun _ => 0, total := 0 }

/-- The zero-initialised global histogram collection. -/
def initHists : StochHists := { data := fun _ => emptyHist, total := 0 }

/-- The module state right after stoch_init: zeroed histograms and
stoch_prev = 0. -/
def initState : StochState := { hist := initHists, prev := 0 }

/-- Embeds stoch_hist_update from stoch2.c, called with h = &stoch_hist.data[c].
When x is in range it increments h->data[x], h->total and the global
stoch_hist.total, each a C unsigned int and hence wrapping mod 2^32;
otherwise it does nothing. -/
def stoch_hist_update (g : StochHists) (c x : ℕ) : StochHists :=
  if x < STOCH_HIST_SIZE then
    { data := fun i =>
        if i = c then
          { data := fun s =>
              if s = x then ((g.data c).data x + 1) % UINT_MOD else (g.data c).data s
            total := ((g.data c).total + 1) % UINT_MOD }
        else g.data i
      total := (g.total + 1) % UINT_MOD }
  else g

/-- One iteration of the loop body of stoch_write from stoch2.c:
stoch_hist_update(&stoch_hist.data[stoch_prev], x); stoch_prev = x. -/
def trainStep (s : StochState) (x : ℕ) : StochState :=
  { hist := stoch_hist_update s.hist s.prev x, prev := x }

/-- Embeds stoch_write from stoch2.c: feed every byte of the buffer through
trainStep, in order. -/
def stoch_write (s : StochState) (buf : List ℕ) : StochState :=
  buf.foldl trainStep s

/-- Embeds stoch_hists_clear from stoch2.c.  The body is
memset(&stoch_hist, sizeof(stoch_hist), 0): the fill value and the byte
count are passed in swapped order, so memset writes sizeof(stoch_hist) into
zero bytes — the histograms are left untouched.  The embedding is therefore
the identity. -/
def stoch_hists_clear (g : StochHists) : StochHists := g

/-- The clear operation lifted to the full module state.  stoch_hists_clear
never references stoch_prev, so the cursor is untouched. -/
def clearOp (s : StochState) : StochState := { s with hist := stoch_hists_clear s.hist }

/-- The sampling loop of stoch_hist_val from stoch2.c.  The C loop index i is
an unsigned char, so the test i < STOCH_HIST_SIZE is always true and the loop
can only exit through the break; tot is an unsigned int and wraps.  Whenever
p is at most the (wrapped) sum of the first 256 counters — true in every
state the driver reaches, since p < h->total — the break fires within the
first 256 iterations, which the fuel covers; the fuel-exhausted value 255
(val after a full first pass) is never reached in any theorem below. -/
def histValLoop (h : StochHist) (p : ℕ) : ℕ → ℕ → ℕ → ℕ
  | 0, _, _ => 255
  | fuel + 1, i, tot =>
    let tot' := (tot + h.data (i % 256)) % UINT_MOD
    if p ≤ tot' then i % 256 else histValLoop h p fuel (i + 1) tot'

/-- Embeds stoch_hist_val from stoch2.c with the get_random_bytes draw j made
an explicit argument.  Note the C code computes p = (unsigned char)(j % h->total),
i.e. it truncates the reduced draw to one byte before the walk. -/
def stoch_hist_val (h : StochHist) (j : ℕ) : ℕ :=
  if h.total = 0 then 0
  else histValLoop h ((j % h.total) % 256) 256 0 0

/-- Modelled from the spec (section 4.3, Sampler): walk symbols 0..255 in
ascending order accumulating a running sum of counts and return the first
symbol where the running sum reaches or exceeds the threshold.  Unlike the
code's histValLoop there is no byte truncation and no counter wrap. -/
def specFirstHit (f : ℕ → ℕ) (p : ℕ) : ℕ → ℕ → ℕ → ℕ
  | 0, _, _ => 255
  | fuel + 1, i, tot =>
    let tot' := tot + f i
    if p ≤ tot' then i else specFirstHit f p fuel (i + 1) tot'

/-- Modelled from the spec (section 4.3, Sampler): reduce the source draw j to
r = j mod total, a value uniform in the interval from 0 to total - 1 for a
uniform source, and return the first symbol whose running count sum reaches
r.  This is the algorithm claim C2 attributes to the code. -/
def samplerSpecVal (h : StochHist) (j : ℕ) : ℕ :=
  specFirstHit h.data (j % h.total) 256 0 0

/-- The start-context loop of stoch_hist_gen from stoch2.c: walk contexts
0..255 accumulating their totals into a size_t (64-bit, so no wrap is
reachable: 256 counters each below 2^32 sum below 2^41) and stop at the first
context whose cumulative total reaches the draw.  The C loop leaves prev=255
when no break fires, which the fuel-exhausted branch mirrors. -/
def genStartLoop (g : StochHists) (p : ℕ) : ℕ → ℕ → ℕ → ℕ
  | 0, _, _ => 255
  | fuel + 1, j, tot =>
    let tot' := tot + (g.data j).total
    if p ≤ tot' then j else genStartLoop g p fuel (j + 1) tot'

/-- The starting-context choice at the head of stoch_hist_gen from stoch2.c:
if the grand total is zero the start context is 0, otherwise walk the context
totals against the draw reduced mod the grand total (a size_t modulus, no
byte truncation here). -/
def pickStart (g : StochHists) (j : ℕ) : ℕ :=
  if g.total = 0 then 0 else genStartLoop g (j % g.total) 256 0 0

/-- The generation loop of stoch_hist_gen from stoch2.c, run for n remaining
iterations with current index i, current pos, current context prev, and k the
index of the next unread randomness draw.  While pos == size the loop samples
(stoch_hist_val consumes one draw unless the context total is zero, in which
case the C function returns 0 before calling get_random_bytes), stores the
symbol, makes it the new context, and records pos := i on sampling 0; once
pos differs from size it only writes zero padding.  Returns the bytes written
from position i on, the final pos, and the final draw index. -/
def genLoop (g : StochHists) (rnd : ℕ → ℕ) (size : ℕ) : ℕ → ℕ → ℕ → ℕ → ℕ → List ℕ × ℕ × ℕ
  | 0, _, pos, _, k => ([], pos, k)
  | n + 1, i, pos, prev, k =>
    if pos = size then
      if (g.data prev).total = 0 then
        let r := genLoop g rnd size n (i + 1) i 0 k
        (0 :: r.1, r.2)
      else
        let v := stoch_hist_val (g.data prev) (rnd k)
        let r := genLoop g rnd size n (i + 1) (if v = 0 then i else pos) v (k + 1)
        (v :: r.1, r.2)
    else
      let r := genLoop g rnd size n (i + 1) pos prev k
      (0 :: r.1, r.2)

/-- Embeds stoch_hist_gen from stoch2.c: when the grand total is zero, pos and
prev start at 0 and no draw is consumed; otherwise one draw picks the start
context and pos starts at size.  Returns the buffer, the returned pos (the
logical length) and the number of randomness draws consumed. -/
def stoch_hist_gen (g : StochHists) (size : ℕ) (rnd : ℕ → ℕ) : List ℕ × ℕ × ℕ :=
  if g.total = 0 then
    genLoop g rnd size size 0 0 0 0
  else
    genLoop g rnd size size 0 size (pickStart g (rnd 0)) 1

/-- The read path of the driver as a state transformer: stoch_hist_gen only
reads the global histograms — its body assigns neither stoch_hist nor
stoch_prev — so the state component is returned unchanged. -/
def stochReadOp (s : StochState) (size : ℕ) (rnd : ℕ → ℕ) : StochState × (List ℕ × ℕ × ℕ) :=
  (s, stoch_hist_gen s.hist size rnd)

/-- A concrete frequency table with one count each on symbols 1 and 2
(total 2), used to test the sampler distribution. -/
def tableC1 : StochHist :=
  { data := fun s => if s = 1 then 1 else if s = 2 then 1 else 0, total := 2 }

/-- A concrete frequency table whose total 257 exceeds one byte: all 257
counts sit on symbol 255. -/
def tableC2 : StochHist := { data := fun s => if s = 255 then 257 else 0, total := 257 }

/-- A concrete transition model in which contexts 1 and 2 each carry total 1
(one transition to symbol 3) and the grand total is 2. -/
def histsC8 : StochHists :=
  { data := fun c =>
      if c = 1 then { data := fun s => if s = 3 then 1 else 0, total := 1 }
      else if c = 2 then { data := fun s => if s = 3 then 1 else 0, total := 1 }
      else emptyHist
    total := 2 }

/-- A training stream long enough to wrap a 32-bit counter: 2^32 bytes of
value 1 followed by a single byte 2. -/
def overflowInput : List ℕ := List.replicate (2 ^ 32) 1 ++ [2]

/-- Closed form of a frequency table after n further increments of symbol x:
counts and total advance by n, modulo 2^32 as in the C unsigned ints. -/
def bumpCtx (h : StochHist) (x n : ℕ) : StochHist :=
  { data := fun s => if s = x then (h.data x + n) % UINT_MOD else h.data s
    total := (h.total + n) % UINT_MOD }

/-- Closed form of the module state after training n further copies of the
byte the cursor already holds. -/
def bumpState (s : StochState) (x n : ℕ) : StochState :=
  { hist :=
      { data := fun i =>
          if i = s.prev then bumpCtx (s.hist.data s.prev) x n else s.hist.data i
        total := (s.hist.total + n) % UINT_MOD }
    prev := s.prev }

/-- The module state after training the single byte 1 from the initial state:
context 0 records one transition to 1 and the cursor moves to 1. -/
def c6Mid : StochState :=
  { hist :=
      { data := fun i =>
          if i = 0 then { data := fun t => if t = 1 then 1 else 0, total := 1 }
          else emptyHist
        total := 1 }
    prev := 1 }

/-- C5: training two chunks in separate calls leaves exactly the same model
state — every count, every per-context total, the grand total and the
training cursor — as training their concatenation in one call, for every
starting state, because stoch_write folds over the bytes and the cursor
carries across the boundary. -/
theorem c5_ingest_concat (s : StochState) (A B : List ℕ) :
    stoch_write (stoch_write s A) B = stoch_write s (A ++ B) := by
  simp [stoch_write, List.foldl_append]

/-- C9: a generate call leaves the whole model state (histograms, grand
total and cursor) unchanged, and its buffer, logical length and randomness
consumption are a function of the state, the requested size and the
randomness sequence alone, so a second call on the resulting state with the
same seeded sequence returns the identical output. -/
theorem c9_generate_pure (s : StochState) (size : ℕ) (rnd : ℕ → ℕ) :
    (stochReadOp s size rnd).1 = s ∧
    (stochReadOp (stochReadOp s size rnd).1 size rnd).2 = (stochReadOp s size rnd).2 :=
  ⟨rfl, rfl⟩

/-- C1: the claim that the sampler returns each symbol s for exactly
counts[s] of the total equally-likely draws fails.  On the table with one
count each on symbols 1 and 2, the two draws return symbols 0 and 1: symbol
2 (count 1) is never returned and symbol 0 (count 0) is returned once,
because the walk breaks as soon as the running sum reaches the draw and a
draw of 0 is reached immediately at symbol 0. -/
theorem c1_sampler_distribution_bug :
    tableC1.data 2 = 1 ∧
    ((Finset.range 2).filter fun j => stoch_hist_val tableC1 j = 2).card = 0 ∧
    tableC1.data 0 = 0 ∧
    ((Finset.range 2).filter fun j => stoch_hist_val tableC1 j = 0).card = 1 := by
  decide

set_option maxRecDepth 8000 in
/-- C2: the claim that the sampler compares the walk against a draw r taken
uniformly from the interval 0..total-1 fails: the code truncates j mod total
to an unsigned char.  On the table with 257 counts on symbol 255 and draw
j = 256, the spec algorithm (r = 256) returns symbol 255, but the code
computes p = (256 mod 257) mod 256 = 0 and returns symbol 0, whose count is
zero. -/
theorem c2_sampler_draw_truncation :
    stoch_hist_val tableC2 256 = 0 ∧ samplerSpecVal tableC2 256 = 255 ∧ tableC2.data 0 = 0 := by
  decide

set_option maxRecDepth 8000 in
/-- C3: the reset operation does not clear the model.  stoch_hists_clear
passes the memset value and length arguments in swapped order, so it writes
zero bytes: after training the bytes 65,66,65,66 and then clearing, context
0 still records one transition to 65, and a subsequent generate call can
still emit the nonzero byte 66 instead of the all-zero output the claim
requires. -/
theorem c3_clear_writes_nothing :
    ((clearOp (stoch_write initState [65, 66, 65, 66])).hist.data 0).data 65 = 1 ∧
    (stoch_hist_gen (clearOp (stoch_write initState [65, 66, 65, 66])).hist 2
        (fun k => if k = 0 then 2 else 1)).1 = [66, 0] := by
  decide

set_option maxRecDepth 8000 in
/-- C8: the claim that the starting context is chosen with probability
proportional to each context's total fails.  With contexts 1 and 2 each of
total 1 (grand total 2), the two draws select contexts 0 and 1: context 2 is
never selected and context 0, whose total is zero, is selected once, by the
same first-reach break at a draw of 0.  The grand-total-zero default of
context 0 does hold. -/
theorem c8_start_context_bias :
    (histsC8.data 2).total = 1 ∧
    ((Finset.range 2).filter fun j => pickStart histsC8 j = 2).card = 0 ∧
    (histsC8.data 0).total = 0 ∧
    ((Finset.range 2).filter fun j => pickStart histsC8 j = 0).card = 1 ∧
    pickStart { histsC8 with total := 0 } 7 = 0 := by
  decide

/-- Unfolding equation for one active iteration of the generation loop. -/
theorem genLoop_succ_active (g : StochHists) (rnd : ℕ → ℕ) (size n i prev k : ℕ) :
    genLoop g rnd size (n + 1) i size prev k =
      if (g.data prev).total = 0 then
        (0 :: (genLoop g rnd size n (i + 1) i 0 k).1, (genLoop g rnd size n (i + 1) i 0 k).2)
      else
        (stoch_hist_val (g.data prev) (rnd k) ::
            (genLoop g rnd size n (i + 1)
              (if stoch_hist_val (g.data prev) (rnd k) = 0 then i else size)
              (stoch_hist_val (g.data prev) (rnd k)) (k + 1)).1,
          (genLoop g rnd size n (i + 1)
              (if stoch_hist_val (g.data prev) (rnd k) = 0 then i else size)
              (stoch_hist_val (g.data prev) (rnd k)) (k + 1)).2) := by
  rw [genLoop]
  simp

theorem getD_replicate_zero : ∀ n t : ℕ, (List.replicate n (0 : ℕ)).getD t 0 = 0 := by
  intro n
  induction n with
  | zero => intro t; simp [List.getD]
  | succ n ih =>
    intro t
    cases t with
    | zero => simp [List.replicate_succ]
    | succ t => simp [List.replicate_succ, ih t]

theorem genLoop_pad (g : StochHists) (rnd : ℕ → ℕ) (size : ℕ) :
    ∀ n i pos prev k, pos ≠ size →
      genLoop g rnd size n i pos prev k = (List.replicate n 0, pos, k) := by
  intro n
  induction n with
  | zero => intro i pos prev k h; simp [genLoop]
  | succ n ih =>
    intro i pos prev k h
    simp only [genLoop, if_neg h]
    rw [ih (i + 1) pos prev k h]
    simp [List.replicate_succ]

theorem genLoop_active (g : StochHists) (rnd : ℕ → ℕ) (size : ℕ) :
    ∀ n i prev k out pos fin, i + n = size →
      genLoop g rnd size n i size prev k = (out, pos, fin) →
      out.length = n ∧
      (pos = size ∨ (i ≤ pos ∧ pos < size)) ∧
      (∀ t, t < n → i + t < pos → out.getD t 0 ≠ 0) ∧
      (∀ t, t < n → pos ≤ i + t → out.getD t 0 = 0) ∧
      fin ≤ k + (pos - i) + 1 ∧ fin ≤ k + n := by
  intro n
  induction n with
  | zero =>
    intro i prev k out pos fin hi h
    simp only [genLoop, Prod.mk.injEq] at h
    obtain ⟨h1, h2, h3⟩ := h
    subst h1; subst h2; subst h3
    refine ⟨rfl, Or.inl rfl, ?_, ?_, ?_, ?_⟩ <;> intros <;> omega
  | succ n ih =>
    intro i prev k out pos fin hi h
    have hilt : i < size := by omega
    have hine : i ≠ size := by omega
    rw [genLoop_succ_active] at h
    by_cases hT : (g.data prev).total = 0
    · rw [if_pos hT, genLoop_pad g rnd size n (i + 1) i 0 k hine] at h
      simp only [Prod.mk.injEq] at h
      obtain ⟨h1, h2, h3⟩ := h
      subst h1; subst h2; subst h3
      refine ⟨by simp, Or.inr ⟨le_refl i, hilt⟩, ?_, ?_, by omega, by omega⟩
      · intro t ht hlt; omega
      · intro t ht hle
        cases t with
        | zero => rfl
        | succ t => simp [getD_replicate_zero n t]
    · rw [if_neg hT] at h
      by_cases hv : stoch_hist_val (g.data prev) (rnd k) = 0
      · rw [if_pos hv,
          genLoop_pad g rnd size n (i + 1) i (stoch_hist_val (g.data prev) (rnd k)) (k + 1) hine] at h
        simp only [Prod.mk.injEq] at h
        obtain ⟨h1, h2, h3⟩ := h
        subst h1; subst h2; subst h3
        refine ⟨by simp, Or.inr ⟨le_refl i, hilt⟩, ?_, ?_, by omega, by omega⟩
        · intro t ht hlt; omega
        · intro t ht hle
          cases t with
          | zero => simp [hv]
          | succ t => simp [getD_replicate_zero n t]
      · rw [if_neg hv] at h
        rcases hrest : genLoop g rnd size n (i + 1) size
            (stoch_hist_val (g.data prev) (rnd k)) (k + 1) with ⟨out', pos', fin'⟩
        obtain ⟨hlen, hdisj, hnz, hz, hfin1, hfin2⟩ :=
          ih (i + 1) (stoch_hist_val (g.data prev) (rnd k)) (k + 1) out' pos' fin'
            (by omega) hrest
        rw [hrest] at h
        simp only [Prod.mk.injEq] at h
        obtain ⟨h1, h2, h3⟩ := h
        subst h1; subst h2; subst h3
        have hpos' : i + 1 ≤ pos' := by
          rcases hdisj with hd | hd <;> omega
        refine ⟨by simp [hlen], ?_, ?_, ?_, ?_, ?_⟩
        · rcases hdisj with hd | hd
          · exact Or.inl hd
          · exact Or.inr ⟨by omega, hd.2⟩
        · intro t ht hlt
          cases t with
          | zero => simpa using hv
          | succ t =>
            have := hnz t (by omega) (by omega)
            simpa using this
        · intro t ht hle
          cases t with
          | zero => omega
          | succ t =>
            have := hz t (by omega) (by omega)
            simpa using this
        · omega
        · omega

/-- C7: generating from a model whose grand total is zero is well defined
and touches no randomness: for every requested size of at least one, the
output is all zeros, the logical length is zero, and zero draws are
consumed, so the sampler is never invoked. -/
theorem c7_empty_model_generates_zeros (g : StochHists) (size : ℕ) (rnd : ℕ → ℕ)
    (h0 : g.total = 0) (hs : 1 ≤ size) :
    stoch_hist_gen g size rnd = (List.replicate size 0, 0, 0) := by
  unfold stoch_hist_gen
  rw [if_pos h0]
  exact genLoop_pad g rnd size size 0 0 0 0 (by omega)

/-- C7 witness: the freshly loaded model has grand total zero, and a
two-byte generate request returns two zero bytes, logical length zero and
consumes no randomness. -/
theorem c7_witness :
    initHists.total = 0 ∧ 1 ≤ 2 ∧
      stoch_hist_gen initHists 2 (fun _ => 7) = (List.replicate 2 0, 0, 0) :=
  ⟨rfl, by decide, c7_empty_model_generates_zeros initHists 2 (fun _ => 7) rfl (by decide)⟩

/-- C4: in every generate call of size at least one, the output has exactly
size bytes and the returned logical length pos lies between 0 and size;
every byte strictly before pos is nonzero and every byte from pos to the
end is zero, so if a terminator is first produced at position i then pos = i
and the rest of the buffer is zero padding; if no terminator is produced,
pos = size; and at most pos + 2 randomness draws are consumed in total (the
start draw plus one per sampled byte), so no sampling happens after the
terminator. -/
theorem c4_terminator_semantics (g : StochHists) (size : ℕ) (rnd : ℕ → ℕ) (hs : 1 ≤ size)
    (out : List ℕ) (pos fin : ℕ) (h : stoch_hist_gen g size rnd = (out, pos, fin)) :
    out.length = size ∧ pos ≤ size ∧
      (∀ t, t < pos → out.getD t 0 ≠ 0) ∧
      (∀ t, pos ≤ t → t < size → out.getD t 0 = 0) ∧
      fin ≤ pos + 2 ∧ fin ≤ size + 1 := by
  unfold stoch_hist_gen at h
  by_cases h0 : g.total = 0
  · rw [if_pos h0, genLoop_pad g rnd size size 0 0 0 0 (by omega)] at h
    simp only [Prod.mk.injEq] at h
    obtain ⟨h1, h2, h3⟩ := h
    subst h1; subst h2; subst h3
    refine ⟨by simp, by omega, ?_, ?_, by omega, by omega⟩
    · intro t ht; omega
    · intro t _ _; exact getD_replicate_zero size t
  · rw [if_neg h0] at h
    obtain ⟨hlen, hdisj, hnz, hz, hfin1, hfin2⟩ :=
      genLoop_active g rnd size size 0 (pickStart g (rnd 0)) 1 out pos fin (by omega) h
    have hpos : pos ≤ size := by rcases hdisj with hd | hd <;> omega
    refine ⟨hlen, hpos, ?_, ?_, by omega, by omega⟩
    · intro t ht
      exact hnz t (by omega) (by omega)
    · intro t ht1 ht2
      exact hz t (by omega) (by omega)

set_option maxRecDepth 8000 in
/-- C4 witness: on the model histsC8 with size 2 and a constant randomness
stream of 1, the call returns the buffer 0,0 with logical length 0 after
consuming 2 draws, and the theorem's conclusions hold there. -/
theorem c4_witness :
    1 ≤ 2 ∧
      ([0, 0] : List ℕ).length = 2 ∧ 0 ≤ 2 ∧
      (∀ t, t < 0 → ([0, 0] : List ℕ).getD t 0 ≠ 0) ∧
      (∀ t, 0 ≤ t → t < 2 → ([0, 0] : List ℕ).getD t 0 = 0) ∧
      2 ≤ 0 + 2 ∧ 2 ≤ 2 + 1 :=
  ⟨by decide,
    c4_terminator_semantics histsC8 2 (fun _ => 1) (by decide) [0, 0] 0 2 (by decide)⟩

/-- C10: the training cursor starts at symbol 0, so the very first trained
byte x is recorded as a transition out of context 0; training moves the
cursor to the trained byte, while neither the clear operation nor a
generate call ever changes it. -/
theorem c10_cursor_ownership (x : ℕ) (hx : x < 256) :
    initState.prev = 0 ∧
      ((stoch_write initState [x]).hist.data 0).data x = 1 ∧
      (stoch_write initState [x]).prev = x ∧
      (∀ s : StochState, (clearOp s).prev = s.prev) ∧
      (∀ (s : StochState) (size : ℕ) (rnd : ℕ → ℕ), (stochReadOp s size rnd).1.prev = s.prev) := by
  refine ⟨rfl, ?_, rfl, fun s => rfl, fun s size rnd => rfl⟩
  have hx' : x < STOCH_HIST_SIZE := hx
  simp [stoch_write, trainStep, stoch_hist_update, if_pos hx', initState, initHists,
    emptyHist, UINT_MOD]

/-- C10 witness: instantiated at the byte 65. -/
theorem c10_witness :
    65 < 256 ∧
      (initState.prev = 0 ∧
        ((stoch_write initState [65]).hist.data 0).data 65 = 1 ∧
        (stoch_write initState [65]).prev = 65 ∧
        (∀ s : StochState, (clearOp s).prev = s.prev) ∧
        (∀ (s : StochState) (size : ℕ) (rnd : ℕ → ℕ),
          (stochReadOp s size rnd).1.prev = s.prev)) :=
  ⟨by decide, c10_cursor_ownership 65 (by decide)⟩

/-- Bumping a context by zero further increments is the identity as long as
the three touched counters are in range. -/
theorem bumpState_zero (s : StochState) (x : ℕ) (hp : s.prev = x)
    (hd : (s.hist.data x).data x < UINT_MOD) (ht : (s.hist.data x).total < UINT_MOD)
    (hg : s.hist.total < UINT_MOD) :
    bumpState s x 0 = s := by
  subst hp
  refine StochState.ext ?_ rfl
  refine StochHists.ext ?_ ?_
  · funext i
    by_cases hi : i = s.prev
    · subst hi
      simp only [bumpState, bumpCtx, if_pos rfl]
      refine StochHist.ext ?_ ?_
      · funext t
        by_cases htx : t = s.prev
        · subst htx; simp [Nat.mod_eq_of_lt hd]
        · simp [htx]
      · simp [Nat.mod_eq_of_lt ht]
    · simp [bumpState, hi]
  · simp [bumpState, Nat.mod_eq_of_lt hg]


/-- One further training step on the byte the cursor holds advances the
closed form by one. -/
theorem trainStep_bump (s : StochState) (x n : ℕ) (hx : x < 256) (hp : s.prev = x) :
    trainStep (bumpState s x n) x = bumpState s x (n + 1) := by
  subst hp
  have hx' : s.prev < STOCH_HIST_SIZE := hx
  refine StochState.ext ?_ rfl
  simp only [trainStep, stoch_hist_update, bumpState, bumpCtx, if_pos hx']
  refine StochHists.ext ?_ ?_
  · funext i
    by_cases hi : i = s.prev
    · subst hi
      simp only [if_pos rfl]
      refine StochHist.ext ?_ ?_
      · funext t
        by_cases htx : t = s.prev
        · subst htx; simp [Nat.mod_add_mod, Nat.add_assoc]
        · simp [htx]
      · simp [Nat.mod_add_mod, Nat.add_assoc]
    · simp [hi]
  · simp [Nat.mod_add_mod, Nat.add_assoc]


/-- Training n copies of the byte the cursor already holds adds n (mod 2^32)
to that context's matching count, its total, and the grand total. -/
theorem write_replicate (x : ℕ) (hx : x < 256) :
    ∀ (n : ℕ) (s : StochState), s.prev = x →
      (s.hist.data x).data x < UINT_MOD → (s.hist.data x).total < UINT_MOD →
      s.hist.total < UINT_MOD →
      stoch_write s (List.replicate n x) = bumpState s x n := by
  intro n
  induction n with
  | zero =>
    intro s hp hd ht hg
    simpa [stoch_write] using (bumpState_zero s x hp hd ht hg).symm
  | succ n ih =>
    intro s hp hd ht hg
    have hsplit : stoch_write s (List.replicate (n + 1) x) =
        stoch_write (stoch_write s (List.replicate n x)) [x] := by
      rw [List.replicate_succ']
      simp [stoch_write, List.foldl_append]
    rw [hsplit, ih s hp hd ht hg]
    have hone : stoch_write (bumpState s x n) [x] = trainStep (bumpState s x n) x := by
      simp [stoch_write]
    rw [hone]
    exact trainStep_bump s x n hx hp


/-- Training the single byte 1 from the initial state yields c6Mid. -/
theorem trainStep_init_one : trainStep initState 1 = c6Mid := by
  refine StochState.ext ?_ rfl
  simp only [trainStep, stoch_hist_update, initState, initHists, emptyHist, c6Mid,
    STOCH_HIST_SIZE]
  norm_num
  constructor
  · funext i
    by_cases hi : i = 0
    · subst hi
      simp only [if_pos rfl]
      refine StochHist.ext ?_ ?_
      · funext t
        by_cases ht : t = 1
        · subst ht; norm_num [UINT_MOD]
        · simp [ht]
      · norm_num [UINT_MOD]
    · simp [hi]
  · norm_num [UINT_MOD]


/-- Splitting off the first element of the long replicate block. -/
theorem replicate_pow32_split : List.replicate (2 ^ 32) (1 : ℕ) = 1 :: List.replicate (2 ^ 32 - 1) 1 := by
  conv_lhs => rw [show (2 : ℕ) ^ 32 = (2 ^ 32 - 1) + 1 by norm_num, List.replicate_succ]

/-- Folding over a concatenation is folding twice. -/
theorem stoch_write_append (s : StochState) (A B : List ℕ) :
    stoch_write s (A ++ B) = stoch_write (stoch_write s A) B := by
  simp [stoch_write, List.foldl_append]

/-- Folding over a cons performs one training step first. -/
theorem stoch_write_cons (s : StochState) (a : ℕ) (A : List ℕ) :
    stoch_write s (a :: A) = stoch_write (trainStep s a) A := by
  simp [stoch_write]

/-- Folding over the empty buffer changes nothing. -/
theorem stoch_write_nil (s : StochState) : stoch_write s [] = s := rfl

/-- Decomposition of training the overflow stream: one byte 1, then 2^32 - 1
further bytes 1, then the byte 2. -/
theorem overflow_chain : stoch_write initState overflowInput =
    trainStep (stoch_write (trainStep initState 1) (List.replicate (2 ^ 32 - 1) 1)) 2 := by
  rw [overflowInput, stoch_write_append, replicate_pow32_split, stoch_write_cons,
    stoch_write_nil, stoch_write_cons]

/-- Closed form of context 1 after training the overflow stream: the count
for symbol 1 wrapped to 2^32 - 1, the count for symbol 2 is 1, and the
context total wrapped all the way to 0. -/
theorem c6_ctx1 :
    (stoch_write initState overflowInput).hist.data 1 =
      { data := fun t => if t = 2 then 1 else if t = 1 then 2 ^ 32 - 1 else 0
        total := 0 } := by
  rw [overflow_chain, trainStep_init_one,
    write_replicate 1 (by norm_num) (2 ^ 32 - 1) c6Mid rfl
      (by norm_num [c6Mid, emptyHist, UINT_MOD])
      (by norm_num [c6Mid, emptyHist, UINT_MOD])
      (by norm_num [c6Mid, UINT_MOD])]
  simp only [trainStep, stoch_hist_update, bumpState, bumpCtx, c6Mid, emptyHist,
    STOCH_HIST_SIZE]
  norm_num
  constructor
  · funext t
    by_cases h2 : t = 2
    · subst h2; norm_num [UINT_MOD]
    · by_cases h1 : t = 1
      · subst h1
        norm_num [h2, UINT_MOD]
      · simp [h1, h2]
  · norm_num [UINT_MOD]


/-- C6: the per-context invariant that total equals the sum of the counts
fails on the code for a long enough training sequence, because the 32-bit
unsigned counters wrap: after training 2^32 bytes of value 1 followed by one
byte 2 from the empty model, context 1 has total 0 but counts summing to
2^32 (the code itself remarks "should check here for an overflow").  So the
claim does not hold after every training sequence. -/
theorem c6_counter_wrap :
    ¬ (((stoch_write initState overflowInput).hist.data 1).total =
        ∑ t in Finset.range 256, ((stoch_write initState overflowInput).hist.data 1).data t) := by
  rw [c6_ctx1]
  have hfun : ∀ t : ℕ, (if t = 2 then (1 : ℕ) else if t = 1 then 2 ^ 32 - 1 else 0) =
      (if t = 2 then (1 : ℕ) else 0) + (if t = 1 then 2 ^ 32 - 1 else 0) := by
    intro t
    by_cases h2 : t = 2
    · subst h2; simp
    · by_cases h1 : t = 1 <;> simp [h1, h2]
  have hsum : (∑ t in Finset.range 256,
      (if t = 2 then (1 : ℕ) else if t = 1 then 2 ^ 32 - 1 else 0)) = 2 ^ 32 := by
    rw [Finset.sum_congr rfl fun t _ => hfun t, Finset.sum_add_distrib,
      Finset.sum_ite_eq' (Finset.range 256) 2 fun _ => (1 : ℕ),
      Finset.sum_ite_eq' (Finset.range 256) 1 fun _ => (2 : ℕ) ^ 32 - 1]
    norm_num [Finset.mem_range]
  simp only [hsum]
  norm_num

end Stoch
